import Mathlib

set_option maxRecDepth 4000

/-! Verification of the Thurs raycaster engine: a shallow embedding of
`raycaster.rs`, `engine.rs` and `player.rs`, together with theorems about
the DDA ray caster, the collision resolver, the movement integrator, the
turn integrator and the per-column render mathematics.

Numeric model: the engine's `f32` arithmetic on positions, directions and
distances is modelled exactly, by rational numbers.  So that every concrete
run of the embedded code can be checked by kernel reduction, rationals are
represented by the executable type `Q` below (numerator and positive
denominator, kept in lowest terms by construction); `Q.toRat` interprets a
`Q` value in Mathlib's `ℚ` and is used by the general lemmas.  The special
values `INFINITY` and NaN that `cast_ray` manufactures are modelled by the
carrier `F` wrapping `Q`. -/

/-- Executable exact rationals: numerator and denominator.  All arithmetic
goes through `Q.mk'`, which normalises, so values built by the operations
below are in lowest terms with a positive denominator. -/
structure Q where
  num : ℤ
  den : ℕ
deriving DecidableEq

/-- Build a normalised rational `n / d` (for `d ≠ 0`). -/
def Q.mk' (n : ℤ) (d : ℕ) : Q :=
  if d = 0 then ⟨0, 1⟩
  else
    let g := n.natAbs.gcd d
    if g = 0 then ⟨0, 1⟩
    else ⟨n / (g : ℤ), d / g⟩

/-- Representation invariant: the denominator is positive. -/
def Q.Pos (q : Q) : Prop := 0 < q.den

instance (q : Q) : Decidable q.Pos := inferInstanceAs (Decidable (0 < q.den))

/-- The rational value of a `Q`. -/
def Q.toRat (q : Q) : ℚ := (q.num : ℚ) / (q.den : ℚ)

def Q.ofInt (n : ℤ) : Q := ⟨n, 1⟩

def Q.ofNat (n : ℕ) : Q := ⟨(n : ℤ), 1⟩

def Q.one : Q := ⟨1, 1⟩

def Q.neg (a : Q) : Q := ⟨-a.num, a.den⟩

def Q.abs (a : Q) : Q := ⟨|a.num|, a.den⟩

def Q.add (a b : Q) : Q :=
  Q.mk' (a.num * (b.den : ℤ) + b.num * (a.den : ℤ)) (a.den * b.den)

def Q.sub (a b : Q) : Q := Q.add a (Q.neg b)

def Q.mul (a b : Q) : Q := Q.mk' (a.num * b.num) (a.den * b.den)

/-- Exact division `a / b` (for `b ≠ 0`). -/
def Q.div (a b : Q) : Q :=
  Q.mk' ((if b.num < 0 then -a.num else a.num) * (b.den : ℤ)) (a.den * b.num.natAbs)

/-- Exact `<` by cross multiplication (value-correct for positive
denominators, which all reachable values have). -/
def Q.lt (a b : Q) : Bool := decide (a.num * (b.den : ℤ) < b.num * (a.den : ℤ))

/-- Extended value type modelling the IEEE f32 values that arise in
`cast_ray` (`raycaster.rs`): finite values (modelled exactly), the
infinities produced by the division guard
`if dir != 0 { (1/dir).abs() } else { f32::INFINITY }`, and NaN, which
IEEE arithmetic produces from `INFINITY - INFINITY` and `0.0 * INFINITY`. -/
inductive F where
  | nan : F
  | inf : F
  | ninf : F
  | fin : Q → F
deriving DecidableEq

/-- IEEE negation on `F`. -/
def F.neg : F → F
  | F.nan => F.nan
  | F.inf => F.ninf
  | F.ninf => F.inf
  | F.fin q => F.fin (Q.neg q)

/-- IEEE addition on `F`: NaN propagates, opposite infinities give NaN. -/
def F.add : F → F → F
  | F.nan, _ => F.nan
  | _, F.nan => F.nan
  | F.inf, F.inf => F.inf
  | F.inf, F.ninf => F.nan
  | F.inf, F.fin _ => F.inf
  | F.ninf, F.inf => F.nan
  | F.ninf, F.ninf => F.ninf
  | F.ninf, F.fin _ => F.ninf
  | F.fin _, F.inf => F.inf
  | F.fin _, F.ninf => F.ninf
  | F.fin a, F.fin b => F.fin (Q.add a b)

/-- IEEE subtraction on `F`. -/
def F.sub (a b : F) : F := F.add a (F.neg b)

/-- IEEE multiplication on `F`: NaN propagates, `0 * ∞` gives NaN. -/
def F.mul : F → F → F
  | F.nan, _ => F.nan
  | _, F.nan => F.nan
  | F.inf, F.inf => F.inf
  | F.inf, F.ninf => F.ninf
  | F.ninf, F.inf => F.ninf
  | F.ninf, F.ninf => F.inf
  | F.inf, F.fin q => if q.num = 0 then F.nan else if 0 < q.num then F.inf else F.ninf
  | F.fin q, F.inf => if q.num = 0 then F.nan else if 0 < q.num then F.inf else F.ninf
  | F.ninf, F.fin q => if q.num = 0 then F.nan else if 0 < q.num then F.ninf else F.inf
  | F.fin q, F.ninf => if q.num = 0 then F.nan else if 0 < q.num then F.ninf else F.inf
  | F.fin a, F.fin b => F.fin (Q.mul a b)

/-- IEEE absolute value on `F`. -/
def F.abs : F → F
  | F.nan => F.nan
  | F.inf => F.inf
  | F.ninf => F.inf
  | F.fin q => F.fin (Q.abs q)

/-- IEEE `<` on `F`: every comparison involving NaN is false, and
`∞ < ∞` is false. -/
def F.lt : F → F → Bool
  | F.nan, _ => false
  | _, F.nan => false
  | F.inf, _ => false
  | F.ninf, F.ninf => false
  | F.ninf, _ => true
  | F.fin _, F.inf => true
  | F.fin _, F.ninf => false
  | F.fin a, F.fin b => Q.lt a b

/-- Modelled from the spec: the repository's map module (`map.rs` is declared
in `main.rs` but is not among the provided source files) supplies `MAP_WIDTH`,
`MAP_HEIGHT` and the read-only occupancy array `WORLD_MAP`.  Per the spec the
grid is a fixed-size 2D array of integer cell codes, width by height,
row-major, `0` meaning empty and any nonzero code meaning solid.  The
embedding is therefore parametrised by such a grid. -/
structure Grid where
  width : ℕ
  height : ℕ
  cells : List (List ℕ)
deriving DecidableEq

/-- A well-formed grid: the cell array really has the advertised dimensions,
as the Rust array type `[[u8; MAP_WIDTH]; MAP_HEIGHT]` guarantees. -/
def Grid.Wf (g : Grid) : Prop :=
  g.cells.length = g.height ∧ ∀ row ∈ g.cells, row.length = g.width

instance (g : Grid) : Decidable g.Wf :=
  inferInstanceAs (Decidable (_ ∧ ∀ row ∈ g.cells, row.length = g.width))

/-- A 2D array access `cells[y][x]` with Rust `as usize` cast semantics: a
negative index wraps to a huge `usize` and, like an index at or past the
array length, is an out-of-range access (a panic), modelled as `none`. -/
def tryCell (g : Grid) (y x : ℤ) : Option ℕ :=
  if 0 ≤ y ∧ 0 ≤ x then
    match g.cells[y.toNat]? with
    | some row => row[x.toNat]?
    | none => none
  else none

/-- Total in-range read of cell `(x, y)`, used where the Rust loop indices
are structurally within the array bounds (`is_colliding`). -/
def Grid.cell (g : Grid) (y x : ℕ) : ℕ := (g.cells.getD y []).getD x 0

/-- The `RayHit` result structure of `raycaster.rs`. -/
structure RayHit where
  distance : F
  hit_pos : F × F
  map_pos : ℤ × ℤ
  side : ℕ
  step : ℤ × ℤ
deriving DecidableEq

/-- `delta_dist` component of `cast_ray`:
`if dir != 0.0 { (1.0 / dir).abs() } else { f32::INFINITY }`. -/
def deltaDist (d : Q) : F :=
  if d.num ≠ 0 then F.fin (Q.abs (Q.div Q.one d)) else F.inf

/-- Step-sign component of `cast_ray`: `-1` if the direction component is
negative and `+1` otherwise. -/
def stepOf (d : Q) : ℤ := if d.num < 0 then -1 else 1

/-- Initial `side_dist` component of `cast_ray`:
`(origin - map_pos) * delta` when the direction component is negative,
`(map_pos + 1 - origin) * delta` otherwise. -/
def sideDistInit (o : Q) (mp : ℤ) (d : Q) : F :=
  if d.num < 0 then F.mul (F.fin (Q.sub o (Q.ofInt mp))) (deltaDist d)
  else F.mul (F.fin (Q.sub (Q.add (Q.ofInt mp) Q.one) o)) (deltaDist d)

/-- Rust `f32 as i32`: truncation toward zero. -/
def truncQ (q : Q) : ℤ := q.num.tdiv (q.den : ℤ)

/-- One iteration of the DDA loop body of `cast_ray` up to (but not
including) the bounds/solidity check: the equal-side-distance (tie) branch
with its two neighbour solidity probes, or the ordinary advance along the
axis with the smaller accumulated side distance.  Returns the updated
`(map_pos.x, map_pos.y, side_dist_x, side_dist_y, side)`; `none` models an
out-of-range array access (panic) in a neighbour probe. -/
def ddaAdvance (g : Grid) (dir : Q × Q) (deltaX deltaY : F) (stepX stepY : ℤ)
    (mapX mapY : ℤ) (sdx sdy : F) (side : ℕ) :
    Option (ℤ × ℤ × F × F × ℕ) :=
  if F.lt (F.abs (F.sub sdx sdy)) (F.fin (Q.mk' 1 10000)) then
    let nextX := mapX + stepX
    let nextY := mapY + stepY
    (match (if 0 ≤ nextX ∧ nextX < (g.width : ℤ) then
              (tryCell g mapY nextX).map (fun v => decide (0 < v))
            else some false),
           (if 0 ≤ nextY ∧ nextY < (g.height : ℤ) then
              (tryCell g nextY mapX).map (fun v => decide (0 < v))
            else some false) with
     | some hitX, some hitY =>
       if hitX || hitY then
         let s := if hitX && hitY then
                    (if Q.lt (Q.abs dir.2) (Q.abs dir.1) then 0 else 1)
                  else if hitX then 0 else 1
         if s = 0 then some (nextX, mapY, sdx, sdy, s)
         else some (mapX, nextY, sdx, sdy, s)
       else some (mapX, mapY, sdx, sdy, side)
     | _, _ => none)
  else if F.lt sdx sdy then some (mapX + stepX, mapY, F.add sdx deltaX, sdy, 0)
  else some (mapX, mapY + stepY, sdx, F.add sdy deltaY, 1)

/-- The successful-return value of `cast_ray`: the distance is
`side_dist[side] - delta_dist[side]` and the hit coordinate is
`origin + dir * distance`. -/
def mkHit (origin dir : Q × Q) (deltaX deltaY : F) (stepX stepY mapX mapY : ℤ)
    (sdx sdy : F) (side : ℕ) : RayHit :=
  let distance := if side = 0 then F.sub sdx deltaX else F.sub sdy deltaY
  ⟨distance,
   (F.add (F.fin origin.1) (F.mul (F.fin dir.1) distance),
    F.add (F.fin origin.2) (F.mul (F.fin dir.2) distance)),
   (mapX, mapY), side, (stepX, stepY)⟩

/-- The `for _ in 0..256` loop of `cast_ray`, with the iteration budget as
fuel.  The outer `Option` models a Rust panic from an out-of-range array
access; the inner `Option` is the function's own `Option<RayHit>` result. -/
def castLoop (g : Grid) (origin dir : Q × Q) (deltaX deltaY : F)
    (stepX stepY : ℤ) :
    ℕ → ℤ → ℤ → F → F → ℕ → Option (Option RayHit)
  | 0, _, _, _, _, _ => some none
  | fuel + 1, mapX, mapY, sdx, sdy, side =>
    match ddaAdvance g dir deltaX deltaY stepX stepY mapX mapY sdx sdy side with
    | none => none
    | some (mapX', mapY', sdx', sdy', side') =>
      if mapX' < 0 ∨ mapY' < 0 ∨ (g.width : ℤ) ≤ mapX' ∨ (g.height : ℤ) ≤ mapY' then
        some none
      else
        match tryCell g mapY' mapX' with
        | none => none
        | some v =>
          if 0 < v then
            some (some (mkHit origin dir deltaX deltaY stepX stepY mapX' mapY'
              sdx' sdy' side'))
          else
            castLoop g origin dir deltaX deltaY stepX stepY fuel mapX' mapY'
              sdx' sdy' side'

/-- `cast_ray` of `raycaster.rs`, parametrised by the grid.  The outer
`Option` models a Rust panic (out-of-range indexing); the inner `Option`
is the `Option<RayHit>` return value. -/
def cast_ray (g : Grid) (origin dir : Q × Q) : Option (Option RayHit) :=
  let mapX := truncQ origin.1
  let mapY := truncQ origin.2
  castLoop g origin dir (deltaDist dir.1) (deltaDist dir.2)
    (stepOf dir.1) (stepOf dir.2) 256 mapX mapY
    (sideDistInit origin.1 mapX dir.1) (sideDistInit origin.2 mapY dir.2) 0

/-- A 5 by 5 fully enclosed empty room: solid border, empty interior. -/
def room5 : Grid :=
  ⟨5, 5, [[1, 1, 1, 1, 1],
          [1, 0, 0, 0, 1],
          [1, 0, 0, 0, 1],
          [1, 0, 0, 0, 1],
          [1, 1, 1, 1, 1]]⟩

/-- A 3 by 3 grid with no solid cell at all, so rays can leave the map. -/
def empty3 : Grid := ⟨3, 3, [[0, 0, 0], [0, 0, 0], [0, 0, 0]]⟩

/-- Rust `f32::clamp(lo, hi)` on exact values. -/
def clampQ (v lo hi : Q) : Q := if Q.lt v lo then lo else if Q.lt hi v then hi else v

/-- `collision_check` of `engine.rs`: circle versus axis-aligned rectangle
via closest-point clamping, with a strict comparison of the squared
distance against `radius * radius`. -/
def collision_check (circle_pos : Q × Q) (radius : Q) (rx ry rw rh : Q) : Bool :=
  let closest_x := clampQ circle_pos.1 rx (Q.add rx rw)
  let closest_y := clampQ circle_pos.2 ry (Q.add ry rh)
  let dx := Q.sub circle_pos.1 closest_x
  let dy := Q.sub circle_pos.2 closest_y
  Q.lt (Q.add (Q.mul dx dx) (Q.mul dy dy)) (Q.mul radius radius)

/-- `is_colliding` of `engine.rs`: the circle collides iff some in-bounds
nonzero cell's unit square overlaps it (iteration over
`0..MAP_HEIGHT` and `0..MAP_WIDTH` only). -/
def is_colliding (g : Grid) (pos : Q × Q) (radius : Q) : Bool :=
  (List.range g.height).any fun y =>
    (List.range g.width).any fun x =>
      decide (g.cell y x ≠ 0) &&
        collision_check pos radius (Q.ofNat x) (Q.ofNat y) Q.one Q.one

/-- One movement-key iteration of the movement loop in `run_game`
(`engine.rs` lines 66-79): commit the full candidate when unblocked;
otherwise the wall-sliding branch, whose x-axis commit is guarded by a
re-test of `try_pos` (exactly as the source is written) and whose y-axis
commit is guarded by a test of `y_only`.  `COLLISION_RADIUS` is `0.1`. -/
def moveStep (g : Grid) (pos move_dir : Q × Q) : Q × Q :=
  let try_pos := (Q.add pos.1 move_dir.1, Q.add pos.2 move_dir.2)
  if !is_colliding g try_pos (Q.mk' 1 10) then try_pos
  else
    let x_only := (try_pos.1, pos.2)
    let y_only := (pos.1, try_pos.2)
    let pos1 := if !is_colliding g try_pos (Q.mk' 1 10) then (x_only.1, pos.2) else pos
    if !is_colliding g y_only (Q.mk' 1 10) then (pos1.1, y_only.2) else pos1

/-- One frame tick of the movement loop: the active movement intents
(any subset of forward, backward and the two strafes) are applied in
sequence, each through `moveStep`. -/
def moveTick (g : Grid) (pos : Q × Q) (moves : List (Q × Q)) : Q × Q :=
  moves.foldl (moveStep g) pos

noncomputable section

/-- Squared magnitude of a 2D vector. -/
def sqMag (v : ℝ × ℝ) : ℝ := v.1 * v.1 + v.2 * v.2

/-- Magnitude (length) of a 2D vector. -/
def magV (v : ℝ × ℝ) : ℝ := Real.sqrt (sqMag v)

/-- Dot product of 2D vectors, raylib `Vector2::dot`. -/
def dotV (a b : ℝ × ℝ) : ℝ := a.1 * b.1 + a.2 * b.2

/-- Modelled from the spec: raylib's `Vector2::normalized` (an external
library routine, not part of this repository's sources) scales the vector
to unit length, guarding the degenerate zero-length case (spec section 7)
by returning a zero vector. -/
def normalizeV (v : ℝ × ℝ) : ℝ × ℝ :=
  if magV v = 0 then (0, 0) else (v.1 / magV v, v.2 / magV v)

/-- The 2D rotation-matrix application used twice in `Player::rotate`. -/
def rotPair (v : ℝ × ℝ) (c s : ℝ) : ℝ × ℝ :=
  (v.1 * c - v.2 * s, v.1 * s + v.2 * c)

/-- `Player::rotate` of `player.rs`: rotate the facing direction and the
camera plane by `angle`, then set both to their `normalized()` values. -/
def rotate (dir plane : ℝ × ℝ) (angle : ℝ) : (ℝ × ℝ) × (ℝ × ℝ) :=
  (normalizeV (rotPair dir (Real.cos angle) (Real.sin angle)),
   normalizeV (rotPair plane (Real.cos angle) (Real.sin angle)))

/-- Initial facing direction set by `Player::new`. -/
def playerNewDir : ℝ × ℝ := (-1, 0)

/-- Initial camera-plane vector set by `Player::new` (`fov_scale = 0.5`). -/
def playerNewPlane : ℝ × ℝ := (0, 1 / 2)

/-- The per-column ray direction of the render driver in `run_game`:
`player.dir + player.plane * camera_x`. -/
def rayDirAt (dir plane : ℝ × ℝ) (cameraX : ℝ) : ℝ × ℝ :=
  (dir.1 + plane.1 * cameraX, dir.2 + plane.2 * cameraX)

/-- The fisheye-corrected distance of the render driver in `run_game`:
`(hit.distance / cos_angle).max(0.2)` where
`cos_angle = ray_dir.normalized().dot(player.dir)`. -/
def correctedDist (raw : ℝ) (rayDir dir : ℝ × ℝ) : ℝ :=
  max (raw / dotV (normalizeV rayDir) dir) (1 / 5)

end

theorem Q.mk'_pos (n : ℤ) (d : ℕ) (hd : d ≠ 0) : (Q.mk' n d).Pos := by
  dsimp only [Q.mk', Q.Pos]
  split_ifs with h1 h2
  · exact Nat.one_pos
  · exact Nat.one_pos
  · exact Nat.div_pos (Nat.le_of_dvd (Nat.pos_of_ne_zero hd) (Nat.gcd_dvd_right _ _))
      (Nat.pos_of_ne_zero h2)

theorem Q.pos_ofInt (n : ℤ) : (Q.ofInt n).Pos := one_pos

theorem Q.pos_ofNat (n : ℕ) : (Q.ofNat n).Pos := one_pos

theorem Q.pos_one : Q.one.Pos := one_pos

theorem Q.pos_neg (a : Q) (h : a.Pos) : (Q.neg a).Pos := h

theorem Q.pos_abs (a : Q) (h : a.Pos) : (Q.abs a).Pos := h

theorem Q.pos_add (a b : Q) (ha : a.Pos) (hb : b.Pos) : (Q.add a b).Pos :=
  Q.mk'_pos _ _ (Nat.mul_ne_zero (Nat.pos_iff_ne_zero.mp ha) (Nat.pos_iff_ne_zero.mp hb))

theorem Q.pos_sub (a b : Q) (ha : a.Pos) (hb : b.Pos) : (Q.sub a b).Pos :=
  Q.pos_add a (Q.neg b) ha hb

theorem Q.pos_mul (a b : Q) (ha : a.Pos) (hb : b.Pos) : (Q.mul a b).Pos :=
  Q.mk'_pos _ _ (Nat.mul_ne_zero (Nat.pos_iff_ne_zero.mp ha) (Nat.pos_iff_ne_zero.mp hb))

theorem Q.toRat_mk' (n : ℤ) (d : ℕ) (hd : d ≠ 0) :
    (Q.mk' n d).toRat = (n : ℚ) / (d : ℚ) := by
  have hdq : (d : ℚ) ≠ 0 := Nat.cast_ne_zero.mpr hd
  dsimp only [Q.mk', Q.toRat]
  split_ifs with h1 h2
  · exact absurd h1 hd
  · exact absurd (Nat.eq_zero_of_gcd_eq_zero_right h2) hd
  · have hgz : n.natAbs.gcd d ≠ 0 := h2
    have hgq : ((n.natAbs.gcd d : ℕ) : ℚ) ≠ 0 := by exact_mod_cast hgz
    have hdvdn : ((n.natAbs.gcd d : ℕ) : ℤ) ∣ n :=
      dvd_trans (Int.natCast_dvd_natCast.mpr (Nat.gcd_dvd_left _ _))
        (Int.natAbs_dvd.mpr dvd_rfl)
    have hdvdd : n.natAbs.gcd d ∣ d := Nat.gcd_dvd_right _ _
    rw [Int.cast_div_charZero hdvdn, Nat.cast_div hdvdd hgq]
    push_cast
    rw [div_div_div_cancel_right₀ hgq]

theorem Q.toRat_ofInt (n : ℤ) : (Q.ofInt n).toRat = (n : ℚ) := by
  unfold Q.ofInt Q.toRat
  norm_num

theorem Q.toRat_ofNat (n : ℕ) : (Q.ofNat n).toRat = (n : ℚ) := by
  unfold Q.ofNat Q.toRat
  norm_num

theorem Q.toRat_one : Q.one.toRat = 1 := by
  unfold Q.one Q.toRat
  norm_num

theorem Q.toRat_neg (a : Q) : (Q.neg a).toRat = -a.toRat := by
  unfold Q.neg Q.toRat
  push_cast
  ring

theorem Q.toRat_abs (a : Q) : (Q.abs a).toRat = |a.toRat| := by
  unfold Q.abs Q.toRat
  rw [abs_div, abs_of_nonneg (show (0 : ℚ) ≤ (a.den : ℚ) from Nat.cast_nonneg _),
    Int.cast_abs]

theorem Q.toRat_add (a b : Q) (ha : a.Pos) (hb : b.Pos) :
    (Q.add a b).toRat = a.toRat + b.toRat := by
  have ha' : (a.den : ℚ) ≠ 0 := Nat.cast_ne_zero.mpr (Nat.pos_iff_ne_zero.mp ha)
  have hb' : (b.den : ℚ) ≠ 0 := Nat.cast_ne_zero.mpr (Nat.pos_iff_ne_zero.mp hb)
  unfold Q.add
  rw [Q.toRat_mk' _ _ (Nat.mul_ne_zero (Nat.pos_iff_ne_zero.mp ha) (Nat.pos_iff_ne_zero.mp hb))]
  unfold Q.toRat
  push_cast
  field_simp

theorem Q.toRat_sub (a b : Q) (ha : a.Pos) (hb : b.Pos) :
    (Q.sub a b).toRat = a.toRat - b.toRat := by
  unfold Q.sub
  rw [Q.toRat_add a (Q.neg b) ha hb, Q.toRat_neg]
  ring

theorem Q.toRat_mul (a b : Q) (ha : a.Pos) (hb : b.Pos) :
    (Q.mul a b).toRat = a.toRat * b.toRat := by
  have ha' : (a.den : ℚ) ≠ 0 := Nat.cast_ne_zero.mpr (Nat.pos_iff_ne_zero.mp ha)
  have hb' : (b.den : ℚ) ≠ 0 := Nat.cast_ne_zero.mpr (Nat.pos_iff_ne_zero.mp hb)
  unfold Q.mul
  rw [Q.toRat_mk' _ _ (Nat.mul_ne_zero (Nat.pos_iff_ne_zero.mp ha) (Nat.pos_iff_ne_zero.mp hb))]
  unfold Q.toRat
  push_cast
  field_simp

theorem Q.lt_iff (a b : Q) (ha : a.Pos) (hb : b.Pos) :
    Q.lt a b = true ↔ a.toRat < b.toRat := by
  have ha' : (0 : ℚ) < (a.den : ℚ) := by exact_mod_cast ha
  have hb' : (0 : ℚ) < (b.den : ℚ) := by exact_mod_cast hb
  unfold Q.lt Q.toRat
  rw [decide_eq_true_eq, div_lt_div_iff ha' hb']
  constructor <;> intro h <;> exact_mod_cast h

theorem Q.num_pos_iff (q : Q) (h : q.Pos) : 0 < q.num ↔ 0 < q.toRat := by
  have h' : (0 : ℚ) < (q.den : ℚ) := by exact_mod_cast h
  unfold Q.toRat
  rw [lt_div_iff h', zero_mul]
  constructor <;> intro hh <;> exact_mod_cast hh

theorem Q.num_eq_zero_iff (q : Q) (h : q.Pos) : q.num = 0 ↔ q.toRat = 0 := by
  have h' : ((q.den : ℚ)) ≠ 0 := ne_of_gt (by exact_mod_cast h)
  unfold Q.toRat
  rw [div_eq_zero_iff]
  constructor
  · intro hh
    left
    exact_mod_cast hh
  · rintro (hh | hh)
    · exact_mod_cast hh
    · exact absurd hh h'

theorem Q.sub_one_lt_truncQ (q : Q) (h : q.Pos) : q.toRat - 1 < (truncQ q : ℚ) := by
  have hd : (0 : ℤ) < (q.den : ℤ) := by exact_mod_cast h
  have hdq : (0 : ℚ) < (q.den : ℚ) := by exact_mod_cast h
  unfold truncQ Q.toRat
  rcases le_or_lt 0 q.num with hn | hn
  · rw [Int.tdiv_eq_ediv hn (le_of_lt hd)]
    have h1 := Int.ediv_add_emod q.num (q.den : ℤ)
    have h2 := Int.emod_lt_of_pos q.num hd
    have key : q.num < (q.num / (q.den : ℤ) + 1) * (q.den : ℤ) := by nlinarith
    rw [sub_lt_iff_lt_add, div_lt_iff hdq]
    exact_mod_cast key
  · have hrw : q.num.tdiv (q.den : ℤ) = -((-q.num).tdiv (q.den : ℤ)) := by
      rw [← Int.neg_tdiv, neg_neg]
    rw [hrw, Int.tdiv_eq_ediv (by omega) (le_of_lt hd)]
    have h1 := Int.ediv_add_emod (-q.num) (q.den : ℤ)
    have h3 := Int.emod_nonneg (-q.num) (ne_of_gt hd)
    have key : q.num < (-((-q.num) / (q.den : ℤ)) + 1) * (q.den : ℤ) := by nlinarith
    rw [sub_lt_iff_lt_add, div_lt_iff hdq]
    exact_mod_cast key

/-- C1: the claim asserts that in a fully enclosed empty room a cast from
the room's centre returns a hit for every direction.  The code refutes it
at the exactly diagonal direction `(1, 1)` from the centre `(5/2, 5/2)` of
the enclosed 5 by 5 room: on a tie the branch at `raycaster.rs:55`-`88`
leaves `map_pos` and both side distances unchanged when neither diagonal
neighbour is solid, so the loop stalls in the origin cell for all 256
iterations and `cast_ray` returns `None` (modelled `some none`: a normal
`None` return, not a panic), however large the iteration cap. -/
theorem C1_center_diagonal_cast_stalls_and_returns_none :
    cast_ray room5 (Q.mk' 5 2, Q.mk' 5 2) (Q.mk' 1 1, Q.mk' 1 1) = some none := by
  decide

/-- C2: on a success path through the tie branch the returned distance is
not the ray parameter at which the struck face is crossed.  From origin
`(7/2, 7/2)` along `(1, 1)` in the enclosed room, the struck face `y = 4`
is crossed at parameter `1/2` (`7/2 + 1 * (1/2) = 4`), but the tie branch
advances `map_pos` without adding `delta` to the side distance, so the
returned distance `sideDist - delta` evaluates to `-1/2 ≠ 1/2`.
(`hit_pos = origin + dir * distance` does hold and gives `(3, 3)`.) -/
theorem C2_tie_branch_success_distance_not_crossing_parameter :
    cast_ray room5 (Q.mk' 7 2, Q.mk' 7 2) (Q.mk' 1 1, Q.mk' 1 1) =
      some (some ⟨F.fin (Q.mk' (-1) 2),
        (F.fin (Q.mk' 3 1), F.fin (Q.mk' 3 1)), (3, 4), 1, (1, 1)⟩) ∧
    (Q.mk' (-1) 2).toRat = -(1 / 2 : ℚ) ∧
    (7 / 2 : ℚ) + 1 * (1 / 2) = 4 ∧ -(1 / 2 : ℚ) ≠ 1 / 2 := by
  refine ⟨by decide, ?_, by norm_num, by norm_num⟩
  rw [show Q.mk' (-1) 2 = ⟨-1, 2⟩ from by decide]
  unfold Q.toRat
  norm_num

/-- C3: the x-axis half of wall sliding never commits.  At `(5/2, 5/4)` in
the enclosed room (adjacent to the top wall on the y axis only), the
diagonal move `(1/16, -3/16)` is blocked, the x-only candidate
`(41/16, 5/4)` is unblocked and the y-only candidate is blocked; the claim
requires the committed position `(41/16, 5/4)`.  Because the x-commit
guard at `engine.rs:73` re-tests `try_pos` (already known to collide)
instead of `x_only`, the code commits nothing: the result is the zero
displacement `(5/2, 5/4)`. -/
theorem C3_blocked_diagonal_with_free_x_axis_commits_nothing :
    is_colliding room5 (Q.mk' 41 16, Q.mk' 17 16) (Q.mk' 1 10) = true ∧
    is_colliding room5 (Q.mk' 41 16, Q.mk' 5 4) (Q.mk' 1 10) = false ∧
    is_colliding room5 (Q.mk' 5 2, Q.mk' 17 16) (Q.mk' 1 10) = true ∧
    moveStep room5 (Q.mk' 5 2, Q.mk' 5 4) (Q.mk' 1 16, Q.mk' (-3) 16) =
      (Q.mk' 5 2, Q.mk' 5 4) := by
  exact ⟨by decide, by decide, by decide, by decide⟩

/-- C7, counterexample part: for the all-zero direction `(0, 0)` the cast
still terminates, but when it finds a hit the returned distance is NaN:
both side distances are `∞` (`0 * delta` guard), the loop marches along
`+y`, and on the hit the distance is computed as `∞ - ∞ = NaN`, which also
propagates into `hit_pos`.  This refutes the claim's inclusion of
`d = (0, 0)` among the directions with non-NaN hit distances. -/
theorem C7_zero_zero_direction_returns_nan_distance :
    cast_ray room5 (Q.mk' 5 2, Q.mk' 5 2) (Q.mk' 0 1, Q.mk' 0 1) =
      some (some ⟨F.nan, (F.nan, F.nan), (2, 4), 1, (1, 1)⟩) := by
  decide

/-- C6, counterexample part: out-of-bounds space is non-blocking in the
code, not solid.  A position far outside the enclosed room collides with
nothing (`is_colliding` iterates in-bounds cells only), and a ray in an
all-empty grid leaves the map and yields `None` rather than a wall hit. -/
theorem C6_outside_position_unblocked_and_ray_escapes :
    is_colliding room5 (Q.mk' (-10) 1, Q.mk' (-10) 1) (Q.mk' 1 10) = false ∧
    cast_ray empty3 (Q.mk' 3 2, Q.mk' 3 2) (Q.mk' 1 1, Q.mk' 0 1) = some none := by
  exact ⟨by decide, by decide⟩

/-- C9, counterexample part: monotonicity in the radius fails for negative
radii, which the claim's quantifier includes.  At `(9/5, 5/2)` the nearest
solid cell is at squared distance `16/25`; with `r = -1` the strict test
`dist² < r * r = 1` holds, yet with the larger radius `r' = 7/10` the test
`dist² < 49/100` fails. -/
theorem C9_negative_radius_breaks_monotonicity :
    is_colliding room5 (Q.mk' 9 5, Q.mk' 5 2) (Q.mk' (-1) 1) = true ∧
    is_colliding room5 (Q.mk' 9 5, Q.mk' 5 2) (Q.mk' 7 10) = false ∧
    (Q.mk' (-1) 1).toRat < (Q.mk' 7 10).toRat := by
  refine ⟨by decide, by decide, ?_⟩
  rw [show Q.mk' (-1) 1 = ⟨-1, 1⟩ from by decide,
    show Q.mk' 7 10 = ⟨7, 10⟩ from by decide]
  unfold Q.toRat
  norm_num

/-- C4: `Player::rotate` normalises the camera plane to UNIT length, not to
its original magnitude `1/2`.  A single rotation by angle `0` from the
initial state maps the plane `(0, 1/2)` to `(0, 1)`: its magnitude jumps
from `1/2` to `1`, a deviation of `1/2`, far beyond the claimed `1/10000`
bound.  (The rotation itself is the identity here; the change is caused
entirely by the `normalized()` call.) -/
theorem C4_rotate_renormalizes_plane_to_unit_length :
    (rotate playerNewDir playerNewPlane 0).2 = (0, 1) ∧
    magV (0, 1) = 1 ∧ magV playerNewPlane = 1 / 2 ∧
    ¬ (|magV (0, 1) - magV playerNewPlane| < 1 / 10000) := by
  have h14 : Real.sqrt (1 / 4) = 1 / 2 := by
    rw [show (1 / 4 : ℝ) = (1 / 2) ^ 2 by norm_num,
      Real.sqrt_sq (by norm_num : (0 : ℝ) ≤ 1 / 2)]
  have hm2 : magV ((0 : ℝ), (1 / 2 : ℝ)) = 1 / 2 := by
    unfold magV sqMag
    rw [show (0 : ℝ) * 0 + 1 / 2 * (1 / 2) = 1 / 4 by norm_num, h14]
  have hm1 : magV ((0 : ℝ), (1 : ℝ)) = 1 := by
    unfold magV sqMag
    rw [show (0 : ℝ) * 0 + 1 * 1 = 1 by norm_num, Real.sqrt_one]
  have hplane : magV playerNewPlane = 1 / 2 := by
    unfold playerNewPlane
    exact hm2
  refine ⟨?_, hm1, hplane, ?_⟩
  · unfold rotate playerNewDir playerNewPlane rotPair
    rw [Real.cos_zero, Real.sin_zero]
    rw [show ((0 : ℝ) * 1 - 1 / 2 * 0, (0 : ℝ) * 0 + 1 / 2 * 1) =
      ((0 : ℝ), (1 / 2 : ℝ)) by norm_num]
    unfold normalizeV
    rw [hm2]
    norm_num
  · rw [hm1, hplane]
    rw [show |(1 : ℝ) - 1 / 2| = 1 / 2 by rw [abs_of_nonneg] <;> norm_num]
    norm_num

/-- C8, counterexample part: at the centre column the corrected distance is
`max(raw, 0.2)`, not `raw`.  From `(9/8, 5/2)` facing `(-1, 0)` the cast
hits the left wall at raw distance `1/8 < 1/5`; with `cameraX = 0` the ray
direction equals the facing direction and the cosine term is `1`, yet the
clamp makes the corrected distance `1/5 ≠ 1/8`, refuting the claim for raw
distances below `0.2`. -/
theorem C8_raw_distance_below_clamp_floor :
    cast_ray room5 (Q.mk' 9 8, Q.mk' 5 2) (Q.mk' (-1) 1, Q.mk' 0 1) =
      some (some ⟨F.fin (Q.mk' 1 8),
        (F.fin (Q.mk' 1 1), F.fin (Q.mk' 5 2)), (0, 2), 0, (-1, 1)⟩) ∧
    rayDirAt (-1, 0) (0, 1 / 2) 0 = (-1, 0) ∧
    correctedDist (1 / 8) (-1, 0) (-1, 0) = 1 / 5 ∧ (1 / 5 : ℝ) ≠ 1 / 8 := by
  have hmag : magV ((-1 : ℝ), (0 : ℝ)) = 1 := by
    unfold magV sqMag
    rw [show (-1 : ℝ) * (-1) + 0 * 0 = 1 by norm_num, Real.sqrt_one]
  refine ⟨by decide, ?_, ?_, by norm_num⟩
  · unfold rayDirAt
    norm_num
  · have hnorm : normalizeV ((-1 : ℝ), (0 : ℝ)) = ((-1 : ℝ), (0 : ℝ)) := by
      unfold normalizeV
      rw [hmag]
      norm_num
    unfold correctedDist
    rw [hnorm]
    have hdot : dotV ((-1 : ℝ), (0 : ℝ)) ((-1 : ℝ), (0 : ℝ)) = 1 := by
      unfold dotV
      norm_num
    rw [hdot, div_one]
    rw [max_eq_right (by norm_num : (1 / 8 : ℝ) ≤ 1 / 5)]

/-- C8, amended: at the centre column (`cameraX = 0`) the per-column ray
direction equals the facing direction, and — facing direction being unit
length — the corrected distance is `max(raw, 0.2)`; in particular it
equals the raw hit distance exactly when `raw ≥ 0.2 = 1/5`. -/
theorem C8_center_column_ray_and_corrected_distance
    (dir plane : ℝ × ℝ) (raw : ℝ) (hdir : sqMag dir = 1) (hraw : 1 / 5 ≤ raw) :
    rayDirAt dir plane 0 = dir ∧ correctedDist raw dir dir = raw := by
  constructor
  · unfold rayDirAt
    simp
  · have hmag : magV dir = 1 := by
      unfold magV
      rw [hdir, Real.sqrt_one]
    have hnorm : normalizeV dir = dir := by
      unfold normalizeV
      rw [hmag]
      simp
    have hdot : dotV dir dir = 1 := by
      unfold sqMag at hdir
      unfold dotV
      exact hdir
    unfold correctedDist
    rw [hnorm, hdot, div_one]
    exact max_eq_left hraw

/-- Witness for C8's amended theorem at the unit direction `(1, 0)` and raw
distance `1`. -/
theorem C8_center_column_ray_and_corrected_distance_witness :
    rayDirAt (1, 0) (0, 1 / 2) 0 = ((1 : ℝ), (0 : ℝ)) ∧
    correctedDist 1 (1, 0) (1, 0) = 1 :=
  C8_center_column_ray_and_corrected_distance (1, 0) (0, 1 / 2) 1
    (by unfold sqMag; norm_num) (by norm_num)

theorem moveStep_preserves_noncollision (g : Grid) (pos mv : Q × Q)
    (h : is_colliding g pos (Q.mk' 1 10) = false) :
    is_colliding g (moveStep g pos mv) (Q.mk' 1 10) = false := by
  unfold moveStep
  cases h1 : is_colliding g (Q.add pos.1 mv.1, Q.add pos.2 mv.2) (Q.mk' 1 10) with
  | false => simp [h1]
  | true =>
    cases h2 : is_colliding g (pos.1, Q.add pos.2 mv.2) (Q.mk' 1 10) with
    | false => simp [h1, h2]
    | true => simp [h1, h2, h]

/-- C5: movement never commits a blocked position.  If the player's circle
of radius `0.1` is collision-free before a tick, it is collision-free
after the whole tick, whatever sequence of movement intents is applied:
the full-candidate commit is guarded, the y-only commit is guarded by a
check of exactly the resulting position, and the x-only commit — whose
guard re-tests `try_pos` — can never fire inside the blocked branch, so no
unchecked write exists. -/
theorem C5_movement_never_commits_blocked_position
    (g : Grid) (pos : Q × Q) (moves : List (Q × Q))
    (h : is_colliding g pos (Q.mk' 1 10) = false) :
    is_colliding g (moveTick g pos moves) (Q.mk' 1 10) = false := by
  unfold moveTick
  induction moves generalizing pos with
  | nil => exact h
  | cons mv rest ih =>
    exact ih (moveStep g pos mv) (moveStep_preserves_noncollision g pos mv h)

/-- Witness for C5 at a concrete collision-free state in the enclosed room. -/
theorem C5_movement_never_commits_blocked_position_witness :
    is_colliding room5
      (moveTick room5 (Q.mk' 5 2, Q.mk' 5 2) [(Q.mk' 1 1, Q.mk' 0 1)])
      (Q.mk' 1 10) = false :=
  C5_movement_never_commits_blocked_position room5 (Q.mk' 5 2, Q.mk' 5 2)
    [(Q.mk' 1 1, Q.mk' 0 1)] (by decide)

/-- C6, amended: `is_colliding` can only report a collision caused by an
in-bounds solid cell — out-of-bounds space never blocks (and, per the
counterexample theorem, a ray that steps outside the grid yields `None`,
escaping instead of hitting a wall). -/
theorem C6_collision_only_from_inbounds_cells
    (g : Grid) (pos : Q × Q) (radius : Q)
    (h : is_colliding g pos radius = true) :
    ∃ y, y < g.height ∧ ∃ x, x < g.width ∧ g.cell y x ≠ 0 ∧
      collision_check pos radius (Q.ofNat x) (Q.ofNat y) Q.one Q.one = true := by
  unfold is_colliding at h
  rw [List.any_eq_true] at h
  obtain ⟨y, hy, hrest⟩ := h
  rw [List.any_eq_true] at hrest
  obtain ⟨x, hx, hcell⟩ := hrest
  rw [Bool.and_eq_true, decide_eq_true_eq] at hcell
  exact ⟨y, List.mem_range.mp hy, x, List.mem_range.mp hx, hcell.1, hcell.2⟩

/-- Witness for C6's amended theorem: the collision at the room's corner
cell is produced by an in-bounds solid cell. -/
theorem C6_collision_only_from_inbounds_cells_witness :
    ∃ y, y < room5.height ∧ ∃ x, x < room5.width ∧ room5.cell y x ≠ 0 ∧
      collision_check (Q.mk' 1 2, Q.mk' 1 2) (Q.mk' 1 10)
        (Q.ofNat x) (Q.ofNat y) Q.one Q.one = true :=
  C6_collision_only_from_inbounds_cells room5 (Q.mk' 1 2, Q.mk' 1 2) (Q.mk' 1 10)
    (by decide)

theorem clampQ_pos (v lo hi : Q) (hv : v.Pos) (hlo : lo.Pos) (hhi : hi.Pos) :
    (clampQ v lo hi).Pos := by
  unfold clampQ
  split_ifs <;> assumption

theorem Q.lt_mul_self_mono (a r r' : Q) (ha : a.Pos) (hr : r.Pos) (hr' : r'.Pos)
    (h0 : 0 ≤ r.toRat) (hlt : r.toRat < r'.toRat)
    (h : Q.lt a (Q.mul r r) = true) : Q.lt a (Q.mul r' r') = true := by
  rw [Q.lt_iff a _ ha (Q.pos_mul _ _ hr hr), Q.toRat_mul _ _ hr hr] at h
  rw [Q.lt_iff a _ ha (Q.pos_mul _ _ hr' hr'), Q.toRat_mul _ _ hr' hr']
  exact lt_of_lt_of_le h (le_of_lt (mul_self_lt_mul_self h0 hlt))

theorem collision_check_mono (p : Q × Q) (r r' rx ry rw rh : Q)
    (hp1 : p.1.Pos) (hp2 : p.2.Pos) (hrx : rx.Pos) (hry : ry.Pos)
    (hrw : rw.Pos) (hrh : rh.Pos) (hr : r.Pos) (hr' : r'.Pos)
    (h0 : 0 ≤ r.toRat) (hlt : r.toRat < r'.toRat)
    (h : collision_check p r rx ry rw rh = true) :
    collision_check p r' rx ry rw rh = true := by
  simp only [collision_check] at h ⊢
  refine Q.lt_mul_self_mono _ r r' ?_ hr hr' h0 hlt h
  exact Q.pos_add _ _
    (Q.pos_mul _ _
      (Q.pos_sub _ _ hp1 (clampQ_pos _ _ _ hp1 hrx (Q.pos_add _ _ hrx hrw)))
      (Q.pos_sub _ _ hp1 (clampQ_pos _ _ _ hp1 hrx (Q.pos_add _ _ hrx hrw))))
    (Q.pos_mul _ _
      (Q.pos_sub _ _ hp2 (clampQ_pos _ _ _ hp2 hry (Q.pos_add _ _ hry hrh)))
      (Q.pos_sub _ _ hp2 (clampQ_pos _ _ _ hp2 hry (Q.pos_add _ _ hry hrh))))

/-- C9, amended: collision monotonicity in the radius holds for nonnegative
radii: if the circle of radius `r ≥ 0` at `p` collides and `r' > r`, then
the circle of radius `r'` collides as well.  (For negative radii the
strict `dist² < r * r` test breaks monotonicity, per the counterexample
theorem.) -/
theorem C9_collision_monotone_for_nonneg_radius
    (g : Grid) (p : Q × Q) (r r' : Q)
    (hp1 : p.1.Pos) (hp2 : p.2.Pos) (hr : r.Pos) (hr' : r'.Pos)
    (h0 : 0 ≤ r.toRat) (hlt : r.toRat < r'.toRat)
    (h : is_colliding g p r = true) : is_colliding g p r' = true := by
  unfold is_colliding at h ⊢
  rw [List.any_eq_true] at h ⊢
  obtain ⟨y, hy, hres⟩ := h
  refine ⟨y, hy, ?_⟩
  rw [List.any_eq_true] at hres ⊢
  obtain ⟨x, hx, hcell⟩ := hres
  refine ⟨x, hx, ?_⟩
  rw [Bool.and_eq_true] at hcell ⊢
  exact ⟨hcell.1,
    collision_check_mono p r r' _ _ _ _ hp1 hp2 (Q.pos_ofNat x) (Q.pos_ofNat y)
      Q.pos_one Q.pos_one hr hr' h0 hlt hcell.2⟩

/-- Witness for C9's amended theorem: radii `1/10 < 1` at the room corner. -/
theorem C9_collision_monotone_for_nonneg_radius_witness :
    is_colliding room5 (Q.mk' 1 2, Q.mk' 1 2) (Q.mk' 1 1) = true :=
  C9_collision_monotone_for_nonneg_radius room5 (Q.mk' 1 2, Q.mk' 1 2)
    (Q.mk' 1 10) (Q.mk' 1 1) (by decide) (by decide) (by decide) (by decide)
    (by rw [show Q.mk' 1 10 = ⟨1, 10⟩ from by decide]; unfold Q.toRat; norm_num)
    (by rw [show Q.mk' 1 10 = ⟨1, 10⟩ from by decide,
          show Q.mk' 1 1 = ⟨1, 1⟩ from by decide]
        unfold Q.toRat
        norm_num)
    (by decide)

theorem deltaDist_of_zero (d : Q) (hd : d.num = 0) : deltaDist d = F.inf := by
  unfold deltaDist
  rw [if_neg (not_not_intro hd)]

theorem deltaDist_of_ne (d : Q) (hd : d.num ≠ 0) :
    deltaDist d = F.fin (Q.abs (Q.div Q.one d)) := by
  unfold deltaDist
  rw [if_pos hd]

theorem sideDistInit_fin (o : Q) (mp : ℤ) (d : Q) (hd : d.num ≠ 0) :
    ∃ t, sideDistInit o mp d = F.fin t := by
  unfold sideDistInit
  rw [deltaDist_of_ne d hd]
  split_ifs with h
  · exact ⟨_, rfl⟩
  · exact ⟨_, rfl⟩

theorem sideDistInit_of_zero (o : Q) (ho : o.Pos) (d : Q) (hd : d.num = 0) :
    sideDistInit o (truncQ o) d = F.inf := by
  unfold sideDistInit
  rw [if_neg (by omega : ¬ d.num < 0)]
  rw [deltaDist_of_zero d hd]
  have hp : (Q.sub (Q.add (Q.ofInt (truncQ o)) Q.one) o).Pos :=
    Q.pos_sub _ _ (Q.pos_add _ _ (Q.pos_ofInt _) Q.pos_one) ho
  have hm : 0 < (Q.sub (Q.add (Q.ofInt (truncQ o)) Q.one) o).num := by
    rw [Q.num_pos_iff _ hp,
      Q.toRat_sub _ _ (Q.pos_add _ _ (Q.pos_ofInt _) Q.pos_one) ho,
      Q.toRat_add _ _ (Q.pos_ofInt _) Q.pos_one, Q.toRat_ofInt, Q.toRat_one]
    have := Q.sub_one_lt_truncQ o ho
    linarith
  show F.mul (F.fin _) F.inf = F.inf
  simp only [F.mul]
  rw [if_neg (by omega), if_pos hm]

theorem castLoop_y_march_fin_distance (g : Grid) (o d : Q × Q) (dy : Q)
    (sX sY : ℤ) :
    ∀ (fuel : ℕ) (mX mY : ℤ) (t : Q) (side : ℕ) (h : RayHit),
      castLoop g o d F.inf (F.fin dy) sX sY fuel mX mY F.inf (F.fin t) side =
        some (some h) →
      ∃ q, h.distance = F.fin q := by
  intro fuel
  induction fuel with
  | zero =>
    intro mX mY t side h heq
    exact absurd heq (by simp [castLoop])
  | succ n ih =>
    intro mX mY t side h heq
    simp only [castLoop] at heq
    have hadv : ddaAdvance g d F.inf (F.fin dy) sX sY mX mY F.inf (F.fin t) side =
        some (mX, mY + sY, F.inf, F.fin (Q.add t dy), 1) := rfl
    rw [hadv] at heq
    dsimp only at heq
    by_cases hb : mX < 0 ∨ mY + sY < 0 ∨ (g.width : ℤ) ≤ mX ∨
        (g.height : ℤ) ≤ mY + sY
    · rw [if_pos hb] at heq
      exact absurd heq (by simp)
    · rw [if_neg hb] at heq
      cases hc : tryCell g (mY + sY) mX with
      | none =>
        rw [hc] at heq
        exact absurd heq (by simp)
      | some v =>
        rw [hc] at heq
        dsimp only at heq
        by_cases hv : 0 < v
        · rw [if_pos hv] at heq
          rw [Option.some.injEq, Option.some.injEq] at heq
          refine ⟨Q.sub (Q.add t dy) dy, ?_⟩
          rw [← heq]
          rfl
        · rw [if_neg hv] at heq
          exact ih mX (mY + sY) (Q.add t dy) 1 h heq

theorem castLoop_x_march_fin_distance (g : Grid) (o d : Q × Q) (dx : Q)
    (sX sY : ℤ) :
    ∀ (fuel : ℕ) (mX mY : ℤ) (t : Q) (side : ℕ) (h : RayHit),
      castLoop g o d (F.fin dx) F.inf sX sY fuel mX mY (F.fin t) F.inf side =
        some (some h) →
      ∃ q, h.distance = F.fin q := by
  intro fuel
  induction fuel with
  | zero =>
    intro mX mY t side h heq
    exact absurd heq (by simp [castLoop])
  | succ n ih =>
    intro mX mY t side h heq
    simp only [castLoop] at heq
    have hadv : ddaAdvance g d (F.fin dx) F.inf sX sY mX mY (F.fin t) F.inf side =
        some (mX + sX, mY, F.fin (Q.add t dx), F.inf, 0) := rfl
    rw [hadv] at heq
    dsimp only at heq
    by_cases hb : mX + sX < 0 ∨ mY < 0 ∨ (g.width : ℤ) ≤ mX + sX ∨
        (g.height : ℤ) ≤ mY
    · rw [if_pos hb] at heq
      exact absurd heq (by simp)
    · rw [if_neg hb] at heq
      cases hc : tryCell g mY (mX + sX) with
      | none =>
        rw [hc] at heq
        exact absurd heq (by simp)
      | some v =>
        rw [hc] at heq
        dsimp only at heq
        by_cases hv : 0 < v
        · rw [if_pos hv] at heq
          rw [Option.some.injEq, Option.some.injEq] at heq
          refine ⟨Q.sub (Q.add t dx) dx, ?_⟩
          rw [← heq]
          rfl
        · rw [if_neg hv] at heq
          exact ih (mX + sX) mY (Q.add t dx) 0 h heq

/-- C7, amended: for a direction with exactly one zero component the
division guard substitutes infinity on that axis, the DDA never advances
along it, and every hit `cast_ray` returns has a finite (non-NaN, and
non-infinite) distance; the cast always terminates (the loop is bounded by
256 iterations by construction).  For `d = (0, 0)`, by the counterexample
theorem, the cast still terminates but a hit's distance is NaN. -/
theorem C7_single_zero_component_hit_distance_finite
    (g : Grid) (o d : Q × Q) (ho1 : o.1.Pos) (ho2 : o.2.Pos)
    (hd : (d.1.num = 0 ∧ d.2.num ≠ 0) ∨ (d.1.num ≠ 0 ∧ d.2.num = 0))
    (h : RayHit) (heq : cast_ray g o d = some (some h)) :
    ∃ q, h.distance = F.fin q := by
  simp only [cast_ray] at heq
  rcases hd with ⟨h1, h2⟩ | ⟨h1, h2⟩
  · rw [deltaDist_of_zero d.1 h1, sideDistInit_of_zero o.1 ho1 d.1 h1,
      deltaDist_of_ne d.2 h2] at heq
    obtain ⟨t, ht⟩ := sideDistInit_fin o.2 (truncQ o.2) d.2 h2
    rw [ht] at heq
    exact castLoop_y_march_fin_distance g o d _ _ _ 256 _ _ t 0 h heq
  · rw [deltaDist_of_ne d.1 h1, sideDistInit_of_zero o.2 ho2 d.2 h2,
      deltaDist_of_zero d.2 h2] at heq
    obtain ⟨t, ht⟩ := sideDistInit_fin o.1 (truncQ o.1) d.1 h1
    rw [ht] at heq
    exact castLoop_x_march_fin_distance g o d _ _ _ 256 _ _ t 0 h heq

/-- Witness for C7's amended theorem: the cast from the room centre along
`(0, 1)` hits the bottom wall with the finite distance `3/2`. -/
theorem C7_single_zero_component_hit_distance_finite_witness :
    ∃ q, (RayHit.mk (F.fin (Q.mk' 3 2)) (F.fin (Q.mk' 5 2), F.fin (Q.mk' 4 1))
      (2, 4) 1 (1, 1)).distance = F.fin q :=
  C7_single_zero_component_hit_distance_finite room5
    (Q.mk' 5 2, Q.mk' 5 2) (Q.mk' 0 1, Q.mk' 1 1) (by decide) (by decide)
    (Or.inl ⟨by decide, by decide⟩)
    (RayHit.mk (F.fin (Q.mk' 3 2)) (F.fin (Q.mk' 5 2), F.fin (Q.mk' 4 1))
      (2, 4) 1 (1, 1))
    (by decide)

theorem tryCell_is_some (g : Grid) (hw : g.Wf) {y x : ℤ}
    (hy0 : 0 ≤ y) (hy1 : y < (g.height : ℤ)) (hx0 : 0 ≤ x)
    (hx1 : x < (g.width : ℤ)) :
    ∃ v, tryCell g y x = some v := by
  unfold tryCell
  rw [if_pos ⟨hy0, hx0⟩]
  have hylen : y.toNat < g.cells.length := by
    rw [hw.1]
    omega
  rw [List.getElem?_eq_getElem hylen]
  have hrowlen : g.cells[y.toNat].length = g.width :=
    hw.2 _ (List.getElem_mem hylen)
  have hxlen : x.toNat < g.cells[y.toNat].length := by
    rw [hrowlen]
    omega
  exact ⟨_, List.getElem?_eq_getElem hxlen⟩

theorem ddaAdvance_is_some (g : Grid) (hw : g.Wf) (dir : Q × Q) (dX dY : F)
    (sX sY mX mY : ℤ) (sdx sdy : F) (side : ℕ)
    (hx0 : 0 ≤ mX) (hx1 : mX < (g.width : ℤ)) (hy0 : 0 ≤ mY)
    (hy1 : mY < (g.height : ℤ)) :
    ∃ st, ddaAdvance g dir dX dY sX sY mX mY sdx sdy side = some st := by
  simp only [ddaAdvance]
  by_cases htie : F.lt (F.abs (F.sub sdx sdy)) (F.fin (Q.mk' 1 10000)) = true
  · rw [if_pos htie]
    obtain ⟨bx, hbx⟩ : ∃ bx, (if 0 ≤ mX + sX ∧ mX + sX < (g.width : ℤ) then
        (tryCell g mY (mX + sX)).map (fun v => decide (0 < v))
      else some false) = some bx := by
      split_ifs with hb
      · obtain ⟨v, hv⟩ := tryCell_is_some g hw hy0 hy1 hb.1 hb.2
        exact ⟨_, by rw [hv]; rfl⟩
      · exact ⟨false, rfl⟩
    obtain ⟨bY, hbY⟩ : ∃ bY, (if 0 ≤ mY + sY ∧ mY + sY < (g.height : ℤ) then
        (tryCell g (mY + sY) mX).map (fun v => decide (0 < v))
      else some false) = some bY := by
      split_ifs with hb
      · obtain ⟨v, hv⟩ := tryCell_is_some g hw hb.1 hb.2 hx0 hx1
        exact ⟨_, by rw [hv]; rfl⟩
      · exact ⟨false, rfl⟩
    rw [hbx, hbY]
    dsimp only
    split_ifs <;> exact ⟨_, rfl⟩
  · rw [if_neg htie]
    by_cases hlt : F.lt sdx sdy = true
    · rw [if_pos hlt]
      exact ⟨_, rfl⟩
    · rw [if_neg hlt]
      exact ⟨_, rfl⟩

theorem castLoop_no_panic (g : Grid) (hw : g.Wf) (o d : Q × Q) (dX dY : F)
    (sX sY : ℤ) :
    ∀ (fuel : ℕ) (mX mY : ℤ) (sdx sdy : F) (side : ℕ),
      0 ≤ mX → mX < (g.width : ℤ) → 0 ≤ mY → mY < (g.height : ℤ) →
      ∃ r, castLoop g o d dX dY sX sY fuel mX mY sdx sdy side = some r := by
  intro fuel
  induction fuel with
  | zero =>
    intro mX mY sdx sdy side _ _ _ _
    exact ⟨none, rfl⟩
  | succ n ih =>
    intro mX mY sdx sdy side hx0 hx1 hy0 hy1
    obtain ⟨⟨mX', mY', sdx', sdy', side'⟩, hst⟩ :=
      ddaAdvance_is_some g hw d dX dY sX sY mX mY sdx sdy side hx0 hx1 hy0 hy1
    simp only [castLoop]
    rw [hst]
    dsimp only
    by_cases hb : mX' < 0 ∨ mY' < 0 ∨ (g.width : ℤ) ≤ mX' ∨ (g.height : ℤ) ≤ mY'
    · rw [if_pos hb]
      exact ⟨none, rfl⟩
    · rw [if_neg hb]
      push_neg at hb
      obtain ⟨v, hv⟩ := tryCell_is_some g hw hb.2.1 hb.2.2.2 hb.1 hb.2.2.1
      rw [hv]
      dsimp only
      by_cases hvpos : 0 < v
      · rw [if_pos hvpos]
        exact ⟨_, rfl⟩
      · rw [if_neg hvpos]
        exact ih mX' mY' sdx' sdy' side' hb.1 hb.2.2.1 hb.2.1 hb.2.2.2

/-- C10 (implicit): if the origin's starting cell — obtained by truncating
the origin coordinates toward zero, exactly as `origin.x as i32` does —
lies inside the grid, then no 2D array access performed by `cast_ray` is
out of range: the embedded function never produces the panic value (outer
`none`); it always returns a normal `Option<RayHit>` result.  The tie
branch bounds-checks `next_x`/`next_y` while relying on the other
coordinate of `map_pos` being in bounds, and the main path bounds-checks
`map_pos` before the solidity lookup, so the in-bounds start cell is the
only precondition needed. -/
theorem C10_cast_ray_no_out_of_range_access
    (g : Grid) (o d : Q × Q) (hw : g.Wf)
    (hx0 : 0 ≤ truncQ o.1) (hx1 : truncQ o.1 < (g.width : ℤ))
    (hy0 : 0 ≤ truncQ o.2) (hy1 : truncQ o.2 < (g.height : ℤ)) :
    ∃ r, cast_ray g o d = some r := by
  simp only [cast_ray]
  exact castLoop_no_panic g hw o d _ _ _ _ 256 _ _ _ _ 0 hx0 hx1 hy0 hy1

/-- Witness for C10 at the centre of the enclosed room. -/
theorem C10_cast_ray_no_out_of_range_access_witness :
    ∃ r, cast_ray room5 (Q.mk' 5 2, Q.mk' 5 2) (Q.mk' 1 1, Q.mk' 0 1) = some r :=
  C10_cast_ray_no_out_of_range_access room5 (Q.mk' 5 2, Q.mk' 5 2)
    (Q.mk' 1 1, Q.mk' 0 1) (by decide) (by decide) (by decide) (by decide)
    (by decide)
